import Mathlib

/-!
Verification development for the fluxpart flux-partitioning core.

The repository source under `src/fluxpart` contains only `api.py`, the public
entry point `fvs_partition`, which forwards to `fvspart` and documents every
configuration option and default of the processing pipeline.  The pipeline
components themselves (sample QC filter, external-effect corrector, turbulence
statistics engine, water-use-efficiency estimator, FVS partitioner, flux
closure adjuster, batch driver) are described by the specification; they are
modelled here from the spec, with reals embedded as rationals so that all
definitions are executable and all predicates decidable.
-/

namespace Fluxpart

/-- The seven physical channels of a high-frequency sample record:
wind velocities u, v, w; CO2 density c; water vapor density q;
temperature T; pressure P. -/
inductive Var : Type
  | u | v | w | c | q | T | P
deriving DecidableEq, Repr

/-- List of all channels, used to scan a record for bounds violations. -/
def allVars : List Var := [Var.u, Var.v, Var.w, Var.c, Var.q, Var.T, Var.P]

/-- Modelled from the spec: one synchronized sample record
(`fluxpart` data layer, not under src/).  `val` gives the SI value of each
channel; `readable` is false when any channel is non-finite/unreadable;
`flagBad` is true when an external flag column marks the record bad. -/
structure SampleRecord where
  val : Var → ℚ
  readable : Bool
  flagBad : Bool

/-- Per-variable bounds table: `none` means no bounds for that variable;
`some (lo, none)` means lower bound `lo` and upper bound +∞;
`some (lo, some hi)` means bounds `(lo, hi)`. -/
def Bounds : Type := Var → Option (ℚ × Option ℚ)

/-- Default bounds from the `fvs_partition` docstring:
`{'c': (0, np.inf), 'q': (0, np.inf)}`, no bounds on the other channels.
The infinite upper bound is represented by `none`. -/
def defaultBounds : Bounds := fun x =>
  match x with
  | Var.c => some (0, none)
  | Var.q => some (0, none)
  | _ => none

/-- Whether channel `v` of value table `r` violates the bounds `b`:
the value lies strictly below the lower bound or strictly above the
(finite) upper bound. -/
def violatesBounds (b : Bounds) (r : Var → ℚ) (x : Var) : Bool :=
  match b x with
  | none => false
  | some (lo, none) => decide (r x < lo)
  | some (lo, some hi) => decide (r x < lo) || decide (hi < r x)

/-- Modelled from the spec (Sample QC Filter, `fluxpart` QC code not under
src/): a record is marked bad iff some channel is non-finite/unreadable,
some channel is outside its bounds, or the record is flagged bad. -/
def recordBad (b : Bounds) (rec : SampleRecord) : Bool :=
  !rec.readable || rec.flagBad || allVars.any (violatesBounds b rec.val)

/-- Good-record mask of an interval: `true` at the records the QC filter
accepts. -/
def goodMask (b : Bounds) (recs : List SampleRecord) : List Bool :=
  recs.map (fun r => !recordBad b r)

/-- Length of the initial run of `true` entries of a Boolean list. -/
def initTrue : List Bool → ℕ
  | [] => 0
  | false :: _ => 0
  | true :: rest => initTrue rest + 1

/-- Scan for the longest run of `true` entries, carrying the length `cur` of
the run immediately preceding the remaining list. -/
def lrAux : ℕ → List Bool → ℕ
  | cur, [] => cur
  | cur, true :: rest => lrAux (cur + 1) rest
  | cur, false :: rest => max cur (lrAux 0 rest)

/-- Length of the longest run of consecutive `true` entries of a list. -/
def longestRun (l : List Bool) : ℕ := lrAux 0 l

/-- Does the Boolean mask hold a run of `n` consecutive `true` entries
starting at index `i`? -/
def maskRunAt (mask : List Bool) (i n : ℕ) : Bool :=
  (List.range n).all (fun j => mask.getD (i + j) false)

/-- First index at which a run of `n` consecutive `true` entries starts. -/
def runStart (mask : List Bool) (n : ℕ) : ℕ :=
  ((List.range (mask.length + 1)).find? (fun i => maskRunAt mask i n)).getD 0

/-- Candidate root of the FVS quadratic together with the covariance split it
implies: the correlation parameter `rho` and the stomatal (`_s`) and
nonstomatal (`_ns`) parts of the water vapor (`wq`) and CO2 (`wc`)
covariances.  Modelled from the spec: the quadratic coefficients and the
split formulas (fluxpart partitioning code, not under src/) are given by the
spec only abstractly, so a candidate carries the implied quantities. -/
structure RootCandidate where
  rho : ℚ
  wq_s : ℚ
  wq_ns : ℚ
  wc_s : ℚ
  wc_ns : ℚ
deriving DecidableEq, Repr

/-- Whether `a` and `b` have strictly opposite signs. -/
def oppSign (a b : ℚ) : Bool :=
  (decide (0 < a) && decide (b < 0)) || (decide (a < 0) && decide (0 < b))

/-- Modelled from the spec: a root is physically valid iff its correlation
magnitude is at most 1 and the implied stomatal water-vapor and CO2
covariances have opposite signs. -/
def rootValid (r : RootCandidate) : Bool :=
  decide (|r.rho| ≤ 1) && oppSign r.wq_s r.wc_s

/-- Diagnostic reason a candidate root was rejected: correlation magnitude
exceeds 1, and/or the implied stomatal covariance signs are not opposite. -/
structure RootRejection where
  corrExceedsOne : Bool
  badCovSigns : Bool
deriving DecidableEq, Repr

/-- Reason the given root fails the physical-validity conditions. -/
def whyRejected (r : RootCandidate) : RootRejection :=
  ⟨decide (1 < |r.rho|), !oppSign r.wq_s r.wc_s⟩

/-- Configuration errors: caller misuse, distinguished from data-quality
failures. -/
inductive ConfigError : Type
  | nonNegativeWue (v : ℚ)
  | unknownPpath (s : String)
  | unknownCiMod (s : String)
  | missingCiParam (ciMod : String) (needed supplied : ℕ)
deriving DecidableEq, Repr

/-- Per-interval failure, recorded as a value on the interval's result:
insufficient good data (with which tolerance failed, the good-run length and
the record total), insufficient turbulence, partition indeterminacy (with
both candidate roots and why each was rejected), or a configuration error
surfaced at point of use. -/
inductive Failure : Type
  | insufficientData (absFail relFail : Bool) (runLen total : ℕ)
  | insufficientTurbulence
  | indeterminate (r1 r2 : RootCandidate) (j1 j2 : RootRejection)
  | badConfig (e : ConfigError)
deriving DecidableEq, Repr

/-- Modelled from the spec (Sample QC Filter, not under src/): mark records
bad, find the longest run of consecutive good records, and reject the
interval when the run is shorter than the absolute tolerance `ad_tol`
(record count) or than the fraction `rd_tol` of the total record count,
citing which tolerance failed; otherwise return the good run. -/
def qcFilter (b : Bounds) (rd_tol : ℚ) (ad_tol : ℕ) (recs : List SampleRecord) :
    Except Failure (List SampleRecord) :=
  let mask := goodMask b recs
  let n := longestRun mask
  let absFail := decide (n < ad_tol)
  let relFail := decide ((n : ℚ) < rd_tol * recs.length)
  if absFail || relFail then
    Except.error (Failure.insufficientData absFail relFail n recs.length)
  else
    Except.ok ((recs.drop (runStart mask n)).take n)

/-- Mean of a list of rationals (0 for the empty list). -/
def listMean (xs : List ℚ) : ℚ := xs.sum / xs.length

/-- Covariance of two series. -/
def listCov (xs ys : List ℚ) : ℚ :=
  listMean (List.zipWith (· * ·) xs ys) - listMean xs * listMean ys

/-- Third central moment of a series. -/
def listM3 (xs : List ℚ) : ℚ :=
  listMean (xs.map (fun a => (a - listMean xs) ^ 3))

/-- Value series of one channel over a record list. -/
def series (rs : List SampleRecord) (x : Var) : List ℚ := rs.map (fun r => r.val x)

/-- Interval Statistics: covariances of w with q and c, variances, third
central moments, and the fourth power of the friction velocity.  Friction
velocity is kept as its fourth power `ustar4 = cov(u,w)^2 + cov(v,w)^2` so
all quantities stay rational. -/
structure IntervalStats where
  wq : ℚ
  wc : ℚ
  var_w : ℚ
  var_q : ℚ
  var_c : ℚ
  m3_q : ℚ
  m3_c : ℚ
  ustar4 : ℚ
deriving DecidableEq, Repr

/-- Modelled from the spec (Turbulence Statistics Engine, not under src/):
means, variances, covariances, third moments and friction velocity derived
from the horizontal and vertical wind covariances. -/
def computeStats (rs : List SampleRecord) : IntervalStats :=
  { wq := listCov (series rs Var.w) (series rs Var.q)
    wc := listCov (series rs Var.w) (series rs Var.c)
    var_w := listCov (series rs Var.w) (series rs Var.w)
    var_q := listCov (series rs Var.q) (series rs Var.q)
    var_c := listCov (series rs Var.c) (series rs Var.c)
    m3_q := listM3 (series rs Var.q)
    m3_c := listM3 (series rs Var.c)
    ustar4 := listCov (series rs Var.u) (series rs Var.w) ^ 2
      + listCov (series rs Var.v) (series rs Var.w) ^ 2 }

/-- Modelled from the spec (WUE model options of fluxpart.wue, not under
src/): resolved canopy/measurement heights, photosynthetic pathway,
intercellular-CO2 model name with its supplied parameters, and the value of
the leaf-level gas-exchange relation (whose closed form the spec leaves to
the domain literature, so it enters the model as a resolved number). -/
structure WueModel where
  canopy_ht : ℚ
  meas_ht : ℚ
  ppath : String
  ci_mod : String
  ci_params : List ℚ
  leafExchange : ℚ

/-- Number of parameters each recognized ci-model requires; `none` for an
unrecognized model name. -/
def ciModArity : String → Option ℕ
  | "const_ratio" => some 1
  | "const_ppm" => some 1
  | "linear" => some 2
  | "sqrt" => some 1
  | _ => none

/-- Validation of the ci-model selection against its required parameter
count (`none` arity meaning the model name is unrecognized), followed by the
strict-negativity check of the resulting gas-exchange value `x`. -/
def ciCheckArity (o : Option ℕ) (ci : String) (params : List ℚ) (x : ℚ) :
    Except ConfigError ℚ :=
  match o with
  | none => Except.error (ConfigError.unknownCiMod ci)
  | some k =>
    if params.length < k then Except.error (ConfigError.missingCiParam ci k params.length)
    else if x < 0 then Except.ok x
    else Except.error (ConfigError.nonNegativeWue x)

/-- Modelled from the spec (WUE Estimator, modeled mode): validate the
photosynthetic pathway, the ci-model name and its parameter count, then
return the gas-exchange value provided it is strictly negative; any
violation is a configuration error, never silently corrected. -/
def wueFromModel (m : WueModel) : Except ConfigError ℚ :=
  if m.ppath = "C3" ∨ m.ppath = "C4" then
    ciCheckArity (ciModArity m.ci_mod) m.ci_mod m.ci_params m.leafExchange
  else Except.error (ConfigError.unknownPpath m.ppath)

/-- WUE prescription: a constant, a function of the interval timestamp, or
the leaf-level model. -/
inductive WueSpec : Type
  | const (v : ℚ)
  | ofTime (f : ℚ → ℚ)
  | model (m : WueModel)

/-- Modelled from the spec (WUE Estimator): resolve the WUE value for the
interval at timestamp `t`, validating strict negativity at point of use. -/
def wueValue (ws : WueSpec) (t : ℚ) : Except ConfigError ℚ :=
  match ws with
  | WueSpec.const v => if v < 0 then Except.ok v else Except.error (ConfigError.nonNegativeWue v)
  | WueSpec.ofTime f =>
    if f t < 0 then Except.ok (f t) else Except.error (ConfigError.nonNegativeWue (f t))
  | WueSpec.model m => wueFromModel m

/-- Partition Result: stomatal and nonstomatal covariance components for
water vapor and CO2. -/
structure PartitionResult where
  wq_s : ℚ
  wq_ns : ℚ
  wc_s : ℚ
  wc_ns : ℚ
deriving DecidableEq, Repr

/-- Root-selection diagnostics: whether both roots were valid (ambiguity
flag) and which candidate root was used (`none` for the dark-hours
override, which uses no root). -/
structure FvsDiag where
  ambiguousRoots : Bool
  usedRoot : Option RootCandidate
deriving DecidableEq, Repr

/-- Covariance split implied by a candidate root. -/
def splitOf (r : RootCandidate) : PartitionResult := ⟨r.wq_s, r.wq_ns, r.wc_s, r.wc_ns⟩

/-- Modelled from the spec (root selection policy): use the single valid
root when exactly one is valid; when both are valid select the root closer
to the fully-correlated limit (larger correlation magnitude) and flag the
ambiguity; when neither is valid, signal indeterminacy with both candidate
roots and the reason each was rejected. -/
def selectRoot (r1 r2 : RootCandidate) : Except Failure (RootCandidate × Bool) :=
  match rootValid r1, rootValid r2 with
  | true, false => Except.ok (r1, false)
  | false, true => Except.ok (r2, false)
  | true, true => Except.ok (if |r2.rho| ≤ |r1.rho| then r1 else r2, true)
  | false, false =>
    Except.error (Failure.indeterminate r1 r2 (whyRejected r1) (whyRejected r2))

/-- Whether the interval starting at time `t` is in dark hours: a
sunrise/sunset window is supplied and `t` is before sunrise or after
sunset. -/
def nightInterval (sun : Option (ℚ × ℚ)) (t : ℚ) : Bool :=
  match sun with
  | none => false
  | some (sunriseT, sunsetT) => decide (t < sunriseT) || decide (sunsetT < t)

/-- Modelled from the spec (FVS Partitioner): in dark hours bypass
root-finding and assign all measured covariance to the nonstomatal
components; otherwise select among the candidate roots of the quadratic and
return the implied split with diagnostics. -/
def fvsPartition (sun : Option (ℚ × ℚ)) (t : ℚ) (stats : IntervalStats)
    (cand : RootCandidate × RootCandidate) : Except Failure (PartitionResult × FvsDiag) :=
  if nightInterval sun t then
    Except.ok (⟨0, stats.wq, 0, stats.wc⟩, ⟨false, none⟩)
  else
    match selectRoot cand.1 cand.2 with
    | Except.ok (r, amb) => Except.ok (splitOf r, ⟨amb, some r⟩)
    | Except.error e => Except.error e

/-- Modelled from the spec (Flux Closure Adjuster): distribute the closure
residual of one species over the stomatal/nonstomatal pair proportionally to
each component's magnitude, so the adjusted pair sums to the measured
total. -/
def adjustPair (total s ns : ℚ) : ℚ × ℚ :=
  (s + (total - (s + ns)) * |s| / (|s| + |ns|),
   ns + (total - (s + ns)) * |ns| / (|s| + |ns|))

/-- Flux Closure Adjuster: when enabled, rescale both species pairs against
the measured totals `mwq`, `mwc`; when disabled, report the raw partition
values unchanged. -/
def closureAdjust (enabled : Bool) (mwq mwc : ℚ) (p : PartitionResult) : PartitionResult :=
  if enabled then
    ⟨(adjustPair mwq p.wq_s p.wq_ns).1, (adjustPair mwq p.wq_s p.wq_ns).2,
     (adjustPair mwc p.wc_s p.wc_ns).1, (adjustPair mwc p.wc_s p.wc_ns).2⟩
  else p

/-- Per-batch configuration, constructed once and shared read-only by every
interval: QC bounds and tolerances, turbulence threshold, whether and how to
correct external effects, the WUE prescription, the FVS quadratic root
producer, the closure-adjustment toggle and the sunrise/sunset window. -/
structure Config where
  bounds : Bounds
  rd_tol : ℚ
  ad_tol : ℕ
  ustar_tol : ℚ
  correctExternal : Bool
  corrector : List SampleRecord → List SampleRecord
  wue : WueSpec
  candidates : IntervalStats → ℚ → RootCandidate × RootCandidate
  adjust : Bool
  sun : Option (ℚ × ℚ)

/-- Default relative tolerance `rd_tol` (docstring: 0.4). -/
def default_rd_tol : ℚ := 2 / 5

/-- Default absolute tolerance `ad_tol` (docstring: 1024 records). -/
def default_ad_tol : ℕ := 1024

/-- Default friction-velocity threshold `ustar_tol` (docstring: 0.1 m/s). -/
def default_ustar_tol : ℚ := 1 / 10

/-- Analysis Record for one processed interval: statistics, the WUE value
used, the (possibly adjusted) partition result and diagnostics. -/
structure AnalysisRecord where
  stats : IntervalStats
  wueUsed : ℚ
  result : PartitionResult
  diag : FvsDiag
deriving DecidableEq, Repr

/-- One analysis interval: its starting timestamp and its sample records. -/
structure Interval where
  time : ℚ
  records : List SampleRecord

/-- External-Effect Corrector stage: pass-through when disabled by
configuration. -/
def correctedRun (cfg : Config) (run : List SampleRecord) : List SampleRecord :=
  if cfg.correctExternal then cfg.corrector run else run

/-- Interval statistics of the (possibly corrected) good run. -/
def statsOf (cfg : Config) (run : List SampleRecord) : IntervalStats :=
  computeStats (correctedRun cfg run)

/-- Modelled from the spec (per-interval pipeline of fluxpart.fluxpart, not
under src/): QC filter, external-effect correction, turbulence statistics
with friction-velocity check, WUE resolution, FVS partition, flux-closure
adjustment; the first failing stage aborts the interval with its failure
value. -/
def processInterval (cfg : Config) (iv : Interval) : Except Failure AnalysisRecord := do
  let run ← qcFilter cfg.bounds cfg.rd_tol cfg.ad_tol iv.records
  if (statsOf cfg run).ustar4 < cfg.ustar_tol ^ 4 then
    throw Failure.insufficientTurbulence
  else do
    let w ← (wueValue cfg.wue iv.time).mapError Failure.badConfig
    let pd ← fvsPartition cfg.sun iv.time (statsOf cfg run)
      (cfg.candidates (statsOf cfg run) w)
    pure ⟨statsOf cfg run, w,
      closureAdjust cfg.adjust (statsOf cfg run).wq (statsOf cfg run).wc pd.1, pd.2⟩

/-- Modelled from the spec (batch driver): each interval is processed
independently with the shared configuration; every per-interval failure is
captured as a value in that interval's slot of the result list. -/
def processBatch (cfg : Config) (ivs : List Interval) : List (Except Failure AnalysisRecord) :=
  ivs.map (processInterval cfg)

/-- Shallow embedding of `fvs_partition` from src/fluxpart/api.py: it
forwards its nine arguments, in order, to `fvspart` (imported from the
module fluxpart.fluxpart, which is not under src/, so the callee is a
parameter).  The Python defaults are carried as Lean default arguments:
ext is the empty string, interval is the string 30min, and the remaining six
parameters default to none. -/
def fvs_partition {F H O W U P L R : Type}
    (fvspartFn : F → String → Option String → Option H → Option O → Option W →
      Option U → Option P → Option L → R)
    (file_or_dir : F) (ext : String := "") (interval : Option String := some "30min")
    (hfd_format : Option H := none) (hfd_options : Option O := none)
    (meas_wue : Option W := none) (wue_options : Option U := none)
    (part_options : Option P := none) (label : Option L := none) : R :=
  fvspartFn file_or_dir ext interval hfd_format hfd_options meas_wue wue_options
    part_options label

/-- Concrete sample record used in witness checks: all channels 1, readable,
unflagged. -/
def recW : SampleRecord := ⟨fun _ => 1, true, false⟩

/-- Concrete record with negative CO2 density, used in witness checks. -/
def recBadC : SampleRecord := ⟨fun x => if x = Var.c then -1 else 1, true, false⟩

/-- Physically valid candidate root used in witness checks. -/
def rootA : RootCandidate := ⟨1, 3, 1, -2, 1⟩

/-- Physically invalid candidate root (correlation magnitude above 1 and
same-sign stomatal covariances), used in witness checks. -/
def rootB : RootCandidate := ⟨2, 1, 1, 1, 1⟩

/-- Configuration used in witness checks: tolerances 0, turbulence threshold
1, no correction, constant WUE -1, fixed candidate roots, adjustment on, no
sunrise/sunset window. -/
def cfgW : Config :=
  ⟨defaultBounds, 0, 0, 1, false, id, WueSpec.const (-1), fun _ _ => (rootA, rootB),
   true, none⟩

/-- Configuration with the documented default tolerances, used in witness
checks. -/
def cfgQC : Config :=
  ⟨defaultBounds, 0, default_ad_tol, default_ustar_tol, false, id,
   WueSpec.const (-1), fun _ _ => (rootA, rootB), true, none⟩

/-- One-record interval used in witness checks. -/
def ivW : Interval := ⟨0, [recW]⟩

/-- Empty interval used in witness checks. -/
def ivEmpty : Interval := ⟨0, []⟩

/-- Concrete interval statistics used in witness checks. -/
def statsW : IntervalStats := ⟨1, 2, 3, 4, 5, 6, 7, 8⟩

theorem lrAux_eq (l : List Bool) : ∀ cur, lrAux cur l = max (cur + initTrue l) (lrAux 0 l) := by
  induction l with
  | nil => intro cur; simp [lrAux, initTrue]
  | cons b rest ih =>
    intro cur
    cases b with
    | true =>
      have h1 := ih (cur + 1)
      have h2 := ih 1
      simp only [lrAux, initTrue] at *
      rw [h1, h2]
      omega
    | false =>
      simp only [lrAux, initTrue]
      omega

theorem longestRun_cons_true (rest : List Bool) :
    longestRun (true :: rest) = max (initTrue rest + 1) (longestRun rest) := by
  have h := lrAux_eq rest 1
  have e : longestRun (true :: rest) = lrAux 1 rest := by norm_num [longestRun, lrAux]
  rw [e, h]
  simp only [longestRun]
  omega

theorem longestRun_cons_false (rest : List Bool) :
    longestRun (false :: rest) = longestRun rest := by
  simp only [longestRun, lrAux]
  have h := lrAux_eq rest 0
  omega

theorem initTrue_prefix (l : List Bool) :
    l = List.replicate (initTrue l) true ++ l.drop (initTrue l) := by
  induction l with
  | nil => rfl
  | cons b rest ih =>
    cases b with
    | true =>
      simp only [initTrue, List.replicate_succ, List.cons_append, List.drop_succ_cons]
      exact congrArg (List.cons true) ih
    | false => simp [initTrue]

theorem initTrue_le_longestRun (l : List Bool) : initTrue l ≤ longestRun l := by
  cases l with
  | nil => simp [initTrue, longestRun, lrAux]
  | cons b rest =>
    cases b with
    | true => rw [longestRun_cons_true]; simp [initTrue]
    | false => simp [initTrue]

theorem longestRun_le_cons (b : Bool) (rest : List Bool) :
    longestRun rest ≤ longestRun (b :: rest) := by
  cases b with
  | true => rw [longestRun_cons_true]; omega
  | false => rw [longestRun_cons_false]

/-- Soundness of the scan: a run of `true` entries of the reported length
really occurs contiguously in the list. -/
theorem longestRun_sound (l : List Bool) :
    ∃ s t, l = s ++ List.replicate (longestRun l) true ++ t := by
  induction l with
  | nil => exact ⟨[], [], by simp [longestRun, lrAux]⟩
  | cons b rest ih =>
    cases b with
    | false =>
      obtain ⟨s, t, h⟩ := ih
      rw [longestRun_cons_false]
      refine ⟨false :: s, t, ?_⟩
      conv_lhs => rw [h]
      simp
    | true =>
      rw [longestRun_cons_true]
      rcases le_or_lt (initTrue rest + 1) (longestRun rest) with hle | hlt
      · obtain ⟨s, t, h⟩ := ih
        rw [max_eq_right hle]
        refine ⟨true :: s, t, ?_⟩
        conv_lhs => rw [h]
        simp
      · rw [max_eq_left (by omega)]
        refine ⟨[], (true :: rest).drop (initTrue rest + 1), ?_⟩
        have h := initTrue_prefix (true :: rest)
        simpa [initTrue] using h

/-- Completeness of the scan: every contiguous run of `true` entries is no
longer than the reported longest run. -/
theorem longestRun_complete (s : List Bool) :
    ∀ n t l, l = s ++ List.replicate n true ++ t → n ≤ longestRun l := by
  induction s with
  | nil =>
    intro n t l h
    subst h
    have h1 : n ≤ initTrue (List.replicate n true ++ t) := by
      induction n with
      | zero => omega
      | succ k ihk => simpa [List.replicate_succ, initTrue] using ihk
    calc n ≤ initTrue (List.replicate n true ++ t) := h1
      _ ≤ longestRun (List.replicate n true ++ t) := initTrue_le_longestRun _
  | cons b s' ih =>
    intro n t l h
    subst h
    calc n ≤ longestRun (s' ++ List.replicate n true ++ t) := ih n t _ rfl
      _ ≤ longestRun (b :: (s' ++ List.replicate n true ++ t)) := longestRun_le_cons _ _
      _ = longestRun ((b :: s') ++ List.replicate n true ++ t) := by simp

theorem adjustPair_sum (total s ns : ℚ) (hs : s ≠ 0) :
    (adjustPair total s ns).1 + (adjustPair total s ns).2 = total := by
  have h1 : 0 < |s| := abs_pos.mpr hs
  have h2 : 0 ≤ |ns| := abs_nonneg ns
  have hd : |s| + |ns| ≠ 0 := by positivity
  unfold adjustPair
  field_simp
  ring

theorem oppSign_iff (a b : ℚ) :
    oppSign a b = true ↔ ((0 < a ∧ b < 0) ∨ (a < 0 ∧ 0 < b)) := by
  simp [oppSign]

/-- C1: with flux-closure adjustment enabled, the adjuster returns, for each
species, a rescaled stomatal/nonstomatal pair whose sum equals the measured
total covariance exactly, the residual being distributed proportionally to
each component's magnitude (the distribution rule is the definition of
adjustPair); with adjustment disabled the raw partition values are returned
unchanged.  Validity of the partition result is its physical sign pattern:
stomatal water-vapor and CO2 covariances of opposite signs. -/
theorem flux_closure_exact (p : PartitionResult) (mwq mwc : ℚ)
    (h : oppSign p.wq_s p.wc_s = true) :
    ((closureAdjust true mwq mwc p).wq_s + (closureAdjust true mwq mwc p).wq_ns = mwq ∧
     (closureAdjust true mwq mwc p).wc_s + (closureAdjust true mwq mwc p).wc_ns = mwc) ∧
    closureAdjust false mwq mwc p = p := by
  rw [oppSign_iff] at h
  have hq : p.wq_s ≠ 0 := by rcases h with ⟨h1, _⟩ | ⟨h1, _⟩ <;> [exact ne_of_gt h1; exact ne_of_lt h1]
  have hc : p.wc_s ≠ 0 := by rcases h with ⟨_, h2⟩ | ⟨_, h2⟩ <;> [exact ne_of_lt h2; exact ne_of_gt h2]
  refine ⟨⟨?_, ?_⟩, ?_⟩
  · simpa [closureAdjust] using adjustPair_sum mwq p.wq_s p.wq_ns hq
  · simpa [closureAdjust] using adjustPair_sum mwc p.wc_s p.wc_ns hc
  · simp [closureAdjust]

/-- Witness for C1 at the concrete partition result (3, 1, -2, 1) with
measured totals 5 and -3. -/
theorem flux_closure_exact_check :
    ((closureAdjust true 5 (-3) ⟨3, 1, -2, 1⟩).wq_s +
        (closureAdjust true 5 (-3) ⟨3, 1, -2, 1⟩).wq_ns = 5 ∧
     (closureAdjust true 5 (-3) ⟨3, 1, -2, 1⟩).wc_s +
        (closureAdjust true 5 (-3) ⟨3, 1, -2, 1⟩).wc_ns = -3) ∧
    closureAdjust false 5 (-3) ⟨3, 1, -2, 1⟩ = ⟨3, 1, -2, 1⟩ :=
  flux_closure_exact ⟨3, 1, -2, 1⟩ 5 (-3) (by decide)

/-- C4: when a sunrise/sunset window is supplied and the interval time lies
before sunrise or after sunset, the partitioner bypasses root-finding and
assigns the full measured covariance of each species to the nonstomatal
component, regardless of the interval statistics and candidate roots. -/
theorem night_override (sun : ℚ × ℚ) (t : ℚ) (stats : IntervalStats)
    (cand : RootCandidate × RootCandidate) (h : t < sun.1 ∨ sun.2 < t) :
    fvsPartition (some sun) t stats cand =
      Except.ok (⟨0, stats.wq, 0, stats.wc⟩, ⟨false, none⟩) := by
  obtain ⟨rise, sset⟩ := sun
  unfold fvsPartition nightInterval
  rcases h with h | h <;> simp [h]

/-- Witness for C4: sunrise 6, sunset 18, interval time 20. -/
theorem night_override_check :
    fvsPartition (some (6, 18)) 20 statsW (rootA, rootB) =
      Except.ok (⟨0, 1, 0, 2⟩, ⟨false, none⟩) :=
  night_override (6, 18) 20 statsW (rootA, rootB) (Or.inr (by norm_num))

/-- C6: the default bounds dictionary bounds only c and q, each below by 0
with an infinite upper bound (modelled as none), and with the default
bounds a readable, unflagged record is rejected exactly when its c or q
value is below 0. -/
theorem default_bounds_spec :
    (defaultBounds Var.c = some (0, none) ∧ defaultBounds Var.q = some (0, none) ∧
     defaultBounds Var.u = none ∧ defaultBounds Var.v = none ∧
     defaultBounds Var.w = none ∧ defaultBounds Var.T = none ∧
     defaultBounds Var.P = none) ∧
    (∀ rec : SampleRecord, rec.readable = true → rec.flagBad = false →
      (recordBad defaultBounds rec = true ↔
        (rec.val Var.c < 0 ∨ rec.val Var.q < 0))) := by
  refine ⟨⟨rfl, rfl, rfl, rfl, rfl, rfl, rfl⟩, ?_⟩
  intro rec h1 h2
  simp [recordBad, h1, h2, allVars, violatesBounds, defaultBounds]

/-- Witness for C6 at a readable, unflagged record with c = -1. -/
theorem default_bounds_check :
    (recordBad defaultBounds recBadC = true ↔
      (recBadC.val Var.c < 0 ∨ recBadC.val Var.q < 0)) ∧
    recordBad defaultBounds recBadC = true :=
  ⟨default_bounds_spec.2 recBadC rfl rfl, by decide⟩

theorem selectRoot_ok_valid (r1 r2 r : RootCandidate) (amb : Bool)
    (h : selectRoot r1 r2 = Except.ok (r, amb)) : rootValid r = true := by
  unfold selectRoot at h
  cases h1 : rootValid r1 <;> cases h2 : rootValid r2 <;> rw [h1, h2] at h
  · simp at h
  · simp at h; simp [← h.1, h2]
  · simp at h; simp [← h.1, h1]
  · simp at h
    split_ifs at h with hc
    · simp [← h.1, h1]
    · simp [← h.1, h2]

/-- C3: a root is accepted as physically valid iff the correlation magnitude
is at most 1 and the implied stomatal water-vapor and CO2 covariances have
strictly opposite signs; and whenever the partitioner produces a covariance
split from a root, that root satisfies the validity conditions. -/
theorem root_validity_spec :
    (∀ r : RootCandidate, rootValid r = true ↔
      (|r.rho| ≤ 1 ∧ ((0 < r.wq_s ∧ r.wc_s < 0) ∨ (r.wq_s < 0 ∧ 0 < r.wc_s)))) ∧
    (∀ (sun : Option (ℚ × ℚ)) (t : ℚ) (stats : IntervalStats)
      (cand : RootCandidate × RootCandidate) (p : PartitionResult) (d : FvsDiag)
      (r : RootCandidate),
      fvsPartition sun t stats cand = Except.ok (p, d) → d.usedRoot = some r →
      rootValid r = true ∧ p = splitOf r) := by
  constructor
  · intro r
    rw [rootValid, Bool.and_eq_true, decide_eq_true_eq, oppSign_iff]
  · intro sun t stats cand p d r hok hused
    unfold fvsPartition at hok
    cases hni : nightInterval sun t <;> rw [hni] at hok <;> simp at hok
    · rcases hsel : selectRoot cand.1 cand.2 with e | ⟨r0, amb⟩ <;> rw [hsel] at hok <;>
        simp at hok
      obtain ⟨hp, hd⟩ := hok
      rw [← hd] at hused
      simp at hused
      subst hused
      exact ⟨selectRoot_ok_valid cand.1 cand.2 r0 amb hsel, hp.symm⟩
    · obtain ⟨-, hd⟩ := hok
      rw [← hd] at hused
      simp at hused

/-- Witness for C3: the partitioner run on candidates (rootA, rootB) uses
rootA, which is valid. -/
theorem root_validity_check :
    rootValid rootA = true ∧ splitOf rootA = splitOf rootA :=
  ⟨(root_validity_spec.2 none 0 statsW (rootA, rootB) (splitOf rootA)
      ⟨false, some rootA⟩ rootA rfl rfl).1, rfl⟩

/-- C2: root selection policy.  With no dark-hours override: if exactly one
candidate root is valid it is used with no ambiguity flag; if both are valid
the root whose correlation magnitude is closer to the fully-correlated limit
(the larger magnitude) is used and the ambiguity is flagged in diagnostics;
if neither is valid the partitioner signals indeterminacy carrying both
candidate roots and, for each, the reason it was rejected (correlation
magnitude above 1 and/or non-opposite stomatal covariance signs), and
produces no value. -/
theorem root_selection_policy (t : ℚ) (stats : IntervalStats) (r1 r2 : RootCandidate) :
    (rootValid r1 = true → rootValid r2 = false →
      fvsPartition none t stats (r1, r2) = Except.ok (splitOf r1, ⟨false, some r1⟩)) ∧
    (rootValid r1 = false → rootValid r2 = true →
      fvsPartition none t stats (r1, r2) = Except.ok (splitOf r2, ⟨false, some r2⟩)) ∧
    (rootValid r1 = true → rootValid r2 = true →
      ∃ r : RootCandidate, (r = r1 ∨ r = r2) ∧ |r.rho| = max |r1.rho| |r2.rho| ∧
        fvsPartition none t stats (r1, r2) = Except.ok (splitOf r, ⟨true, some r⟩)) ∧
    (rootValid r1 = false → rootValid r2 = false →
      fvsPartition none t stats (r1, r2) =
        Except.error (Failure.indeterminate r1 r2 (whyRejected r1) (whyRejected r2))) ∧
    (∀ r : RootCandidate, ((whyRejected r).corrExceedsOne = true ↔ 1 < |r.rho|) ∧
      ((whyRejected r).badCovSigns = true ↔ oppSign r.wq_s r.wc_s = false)) := by
  refine ⟨?_, ?_, ?_, ?_, ?_⟩
  · intro h1 h2
    simp [fvsPartition, nightInterval, selectRoot, h1, h2]
  · intro h1 h2
    simp [fvsPartition, nightInterval, selectRoot, h1, h2]
  · intro h1 h2
    rcases le_or_lt |r2.rho| |r1.rho| with hle | hlt
    · refine ⟨r1, Or.inl rfl, (max_eq_left hle).symm, ?_⟩
      simp [fvsPartition, nightInterval, selectRoot, h1, h2, hle]
    · refine ⟨r2, Or.inr rfl, (max_eq_right (le_of_lt hlt)).symm, ?_⟩
      simp [fvsPartition, nightInterval, selectRoot, h1, h2, not_le.mpr hlt]
  · intro h1 h2
    simp [fvsPartition, nightInterval, selectRoot, h1, h2]
  · intro r
    constructor
    · simp [whyRejected]
    · rw [whyRejected]
      simp

/-- Witness for C2: rootA valid, rootB invalid, so rootA is used without
ambiguity. -/
theorem root_selection_check :
    fvsPartition none 0 statsW (rootA, rootB) =
      Except.ok (splitOf rootA, ⟨false, some rootA⟩) :=
  (root_selection_policy 0 statsW rootA rootB).1 (by decide) (by decide)

/-- C10: the public entry point fvs_partition returns exactly the result of
fvspart applied to the same nine arguments in the same order, performing no
validation or transformation of its own; when the optional parameters are
omitted the forwarded values are ext = "", interval = "30min", and none for
hfd_format, hfd_options, meas_wue, wue_options, part_options and label — in
particular hfd_format is forwarded as none, not as the documented "ec-TOB1"
default. -/
theorem fvs_partition_forwards :
    (∀ (F H O W U P L R : Type)
      (f : F → String → Option String → Option H → Option O → Option W →
        Option U → Option P → Option L → R)
      (fd : F) (ext : String) (interval : Option String) (hf : Option H)
      (ho : Option O) (mw : Option W) (wo : Option U) (po : Option P)
      (lb : Option L),
      fvs_partition f fd ext interval hf ho mw wo po lb =
        f fd ext interval hf ho mw wo po lb) ∧
    (∀ (F H O W U P L R : Type)
      (f : F → String → Option String → Option H → Option O → Option W →
        Option U → Option P → Option L → R) (fd : F),
      fvs_partition f fd = f fd "" (some "30min") none none none none none none) :=
  ⟨fun _ _ _ _ _ _ _ _ _ _ _ _ _ _ _ _ _ _ => rfl,
   fun _ _ _ _ _ _ _ _ _ _ => rfl⟩

theorem except_bind_ok {ε α β : Type} (a : α) (f : α → Except ε β) :
    (Except.ok a >>= f) = f a := rfl

theorem except_bind_error {ε α β : Type} (e : ε) (f : α → Except ε β) :
    ((Except.error e : Except ε α) >>= f) = Except.error e := rfl

/-- C7: whenever the QC filter passes but the derived friction velocity of
the interval is below the configured threshold (compared via fourth powers,
both sides nonnegative), the pipeline rejects the interval with the
insufficient-turbulence failure and produces no analysis record, whatever
the partition inputs (WUE prescription, candidate roots, adjustment and sun
options of the configuration) are. -/
theorem ustar_reject (cfg : Config) (iv : Interval) (run : List SampleRecord)
    (h1 : qcFilter cfg.bounds cfg.rd_tol cfg.ad_tol iv.records = Except.ok run)
    (h2 : (statsOf cfg run).ustar4 < cfg.ustar_tol ^ 4) :
    processInterval cfg iv = Except.error Failure.insufficientTurbulence := by
  unfold processInterval
  rw [h1, except_bind_ok, if_pos h2]
  rfl

theorem qcFilter_empty_ok : qcFilter defaultBounds 0 0 [] = Except.ok [] := by
  rw [qcFilter]
  norm_num [goodMask, longestRun, lrAux]

/-- Witness for C7: the empty interval passes the zero tolerances of cfgW,
has zero covariances and hence zero friction velocity, below the threshold 1
of cfgW. -/
theorem ustar_reject_check :
    processInterval cfgW ivEmpty = Except.error Failure.insufficientTurbulence :=
  ustar_reject cfgW ivEmpty []
    qcFilter_empty_ok
    (by norm_num [statsOf, correctedRun, cfgW, computeStats, series, listCov, listMean])

/-- C8: every WUE value the estimator hands to an interval is strictly
negative, and configuration errors are surfaced at the point of use: a
non-negative prescribed WUE (constant or function of the timestamp), an
unrecognized photosynthetic pathway, an unrecognized ci-model, and a
missing required ci-model parameter each produce the corresponding
configuration error instead of a value. -/
theorem wue_config_errors :
    (∀ (ws : WueSpec) (t v : ℚ), wueValue ws t = Except.ok v → v < 0) ∧
    (∀ (v t : ℚ), 0 ≤ v →
      wueValue (WueSpec.const v) t = Except.error (ConfigError.nonNegativeWue v)) ∧
    (∀ (f : ℚ → ℚ) (t : ℚ), 0 ≤ f t →
      wueValue (WueSpec.ofTime f) t = Except.error (ConfigError.nonNegativeWue (f t))) ∧
    (∀ (m : WueModel) (t : ℚ), m.ppath ≠ "C3" → m.ppath ≠ "C4" →
      wueValue (WueSpec.model m) t = Except.error (ConfigError.unknownPpath m.ppath)) ∧
    (∀ (m : WueModel) (t : ℚ), (m.ppath = "C3" ∨ m.ppath = "C4") →
      ciModArity m.ci_mod = none →
      wueValue (WueSpec.model m) t = Except.error (ConfigError.unknownCiMod m.ci_mod)) ∧
    (∀ (m : WueModel) (t : ℚ) (k : ℕ), (m.ppath = "C3" ∨ m.ppath = "C4") →
      ciModArity m.ci_mod = some k → m.ci_params.length < k →
      wueValue (WueSpec.model m) t =
        Except.error (ConfigError.missingCiParam m.ci_mod k m.ci_params.length)) := by
  refine ⟨?_, ?_, ?_, ?_, ?_, ?_⟩
  · intro ws t v h
    cases ws with
    | const v0 =>
      rw [wueValue] at h
      split_ifs at h with hv
      cases h; exact hv
    | ofTime f =>
      rw [wueValue] at h
      split_ifs at h with hv
      cases h; exact hv
    | model m =>
      rw [wueValue, wueFromModel] at h
      split_ifs at h with hp
      rcases hk : ciModArity m.ci_mod with - | k <;> rw [hk, ciCheckArity] at h
      · exact Except.noConfusion h
      · split_ifs at h with hlen hneg
        cases h; exact hneg
  · intro v t hv
    rw [wueValue, if_neg (not_lt.mpr hv)]
  · intro f t hv
    rw [wueValue, if_neg (not_lt.mpr hv)]
  · intro m t h3 h4
    rw [wueValue, wueFromModel, if_neg (by simp [h3, h4])]
  · intro m t hp hk
    rw [wueValue, wueFromModel, if_pos hp, hk, ciCheckArity]
  · intro m t k hp hk hlen
    rw [wueValue, wueFromModel, if_pos hp, hk, ciCheckArity]
    rw [if_pos hlen]

/-- Witness for C8 at the non-negative constant prescription 0. -/
theorem wue_config_check :
    wueValue (WueSpec.const 0) 0 = Except.error (ConfigError.nonNegativeWue 0) :=
  wue_config_errors.2.1 0 0 (le_refl 0)

/-- C9: batch processing is per-interval: the result list has one slot per
interval, the slot of interval i is exactly the outcome (value or captured
failure) of processing that interval alone with the shared configuration,
and the slot of interval i is unaffected by every other interval of the
batch — a rejected or indeterminate sibling never prevents an interval from
being processed, and a rejected interval contributes exactly its single
failure value (no retry). -/
theorem batch_isolation :
    (∀ (cfg : Config) (ivs : List Interval),
      (processBatch cfg ivs).length = ivs.length) ∧
    (∀ (cfg : Config) (ivs : List Interval) (i : ℕ),
      (processBatch cfg ivs)[i]? = (ivs[i]?).map (processInterval cfg)) ∧
    (∀ (cfg : Config) (ivs1 ivs2 : List Interval) (i : ℕ), ivs1[i]? = ivs2[i]? →
      (processBatch cfg ivs1)[i]? = (processBatch cfg ivs2)[i]?) := by
  refine ⟨?_, ?_, ?_⟩
  · intro cfg ivs
    simp [processBatch]
  · intro cfg ivs i
    simp [processBatch, List.getElem?_map]
  · intro cfg ivs1 ivs2 i h
    simp [processBatch, List.getElem?_map, h]

/-- Witness for C9: interval 0 of a batch is processed identically whether
or not a second (empty, rejected) interval follows it. -/
theorem batch_isolation_check :
    (processBatch cfgW [ivW])[0]? = (processBatch cfgW [ivW, ivEmpty])[0]? :=
  batch_isolation.2.2 cfgW [ivW] [ivW, ivEmpty] 0 rfl

theorem goodMask_length (b : Bounds) (recs : List SampleRecord) :
    (goodMask b recs).length = recs.length := by
  simp [goodMask]

theorem goodMask_getElem? (b : Bounds) (recs : List SampleRecord) (k : ℕ)
    (r : SampleRecord) (h : recs[k]? = some r) :
    (goodMask b recs)[k]? = some (!recordBad b r) := by
  rw [goodMask, List.getElem?_map, h]
  rfl

theorem maskRunAt_getD (mask : List Bool) (i n : ℕ) (h : maskRunAt mask i n = true)
    (j : ℕ) (hj : j < n) : mask.getD (i + j) false = true := by
  rw [maskRunAt, List.all_eq_true] at h
  exact h j (List.mem_range.mpr hj)

theorem maskRunAt_le_length (mask : List Bool) (i n : ℕ) (h : maskRunAt mask i n = true)
    (hn : 0 < n) : i + n ≤ mask.length := by
  by_contra hc
  push_neg at hc
  have hj : ∃ j, j < n ∧ mask.length ≤ i + j := by
    rcases le_or_lt mask.length i with hli | hli
    · exact ⟨0, hn, by omega⟩
    · exact ⟨mask.length - i, by omega, by omega⟩
  obtain ⟨j, hj1, hj2⟩ := hj
  have hg := maskRunAt_getD mask i n h j hj1
  rw [List.getD_eq_getElem?_getD, List.getElem?_eq_none hj2] at hg
  simp at hg

/-- The scan-reported longest run really starts somewhere: the search for
its start position succeeds and the found position carries a full run. -/
theorem runStart_spec (mask : List Bool) :
    maskRunAt mask (runStart mask (longestRun mask)) (longestRun mask) = true := by
  obtain ⟨s, t, hm⟩ := longestRun_sound mask
  have hlen : mask.length = s.length + longestRun mask + t.length := by
    conv_lhs => rw [hm]
    simp only [List.length_append, List.length_replicate]
  have hrun : maskRunAt mask s.length (longestRun mask) = true := by
    rw [maskRunAt, List.all_eq_true]
    intro j hj
    rw [List.mem_range] at hj
    rw [hm, List.getD_eq_getElem?_getD, List.append_assoc,
      List.getElem?_append_right (by omega),
      List.getElem?_append_left (by simpa using hj)]
    simp [List.getElem?_replicate, hj]
  have hsome : ((List.range (mask.length + 1)).find?
      (fun i => maskRunAt mask i (longestRun mask))).isSome = true := by
    rw [List.find?_isSome]
    exact ⟨s.length, List.mem_range.mpr (by omega), hrun⟩
  obtain ⟨i0, hi0⟩ := Option.isSome_iff_exists.mp hsome
  have hp := List.find?_some hi0
  rw [runStart, hi0, Option.getD_some]
  exact hp

theorem qcFilter_ok_form (b : Bounds) (rd : ℚ) (ad : ℕ) (recs run : List SampleRecord)
    (h : qcFilter b rd ad recs = Except.ok run) :
    run = (recs.drop (runStart (goodMask b recs) (longestRun (goodMask b recs)))).take
      (longestRun (goodMask b recs)) := by
  rw [qcFilter] at h
  split_ifs at h
  cases h
  rfl

theorem qcFilter_run_facts (b : Bounds) (rd : ℚ) (ad : ℕ) (recs run : List SampleRecord)
    (h : qcFilter b rd ad recs = Except.ok run) :
    run.length = longestRun (goodMask b recs) ∧ ∀ r ∈ run, recordBad b r = false := by
  have hform := qcFilter_ok_form b rd ad recs run h
  have hml : (goodMask b recs).length = recs.length := goodMask_length b recs
  rcases Nat.eq_zero_or_pos (longestRun (goodMask b recs)) with hn | hn
  · rw [hn] at hform
    simp at hform
    subst hform
    simp [hn]
  · have hrun := runStart_spec (goodMask b recs)
    have hle := maskRunAt_le_length (goodMask b recs)
      (runStart (goodMask b recs) (longestRun (goodMask b recs)))
      (longestRun (goodMask b recs)) hrun hn
    constructor
    · rw [hform]
      simp only [List.length_take, List.length_drop]
      omega
    · intro r hr
      rw [hform] at hr
      obtain ⟨j, hj⟩ := List.mem_iff_getElem?.mp hr
      have hjlt : j < longestRun (goodMask b recs) := by
        by_contra hjc
        rw [List.getElem?_take] at hj
        simp [if_neg hjc] at hj
      rw [List.getElem?_take, if_pos hjlt, List.getElem?_drop] at hj
      have hgd := maskRunAt_getD (goodMask b recs)
        (runStart (goodMask b recs) (longestRun (goodMask b recs)))
        (longestRun (goodMask b recs)) hrun j hjlt
      rw [List.getD_eq_getElem?_getD, goodMask_getElem? b recs _ r hj] at hgd
      simp at hgd
      exact hgd

theorem qcFilter_run_maximal (b : Bounds) (rd : ℚ) (ad : ℕ) (recs run : List SampleRecord)
    (h : qcFilter b rd ad recs = Except.ok run) :
    ∀ s mid t, recs = s ++ mid ++ t → (∀ r ∈ mid, recordBad b r = false) →
      mid.length ≤ run.length := by
  intro s mid t hdec hgood
  have hmask : goodMask b recs =
      goodMask b s ++ List.replicate mid.length true ++ goodMask b t := by
    rw [hdec, goodMask, List.map_append, List.map_append]
    have : List.map (fun r => !recordBad b r) mid = List.replicate mid.length true := by
      rw [List.eq_replicate_iff]
      refine ⟨by simp, ?_⟩
      intro x hx
      obtain ⟨r, hr, hfx⟩ := List.mem_map.mp hx
      rw [← hfx, hgood r hr]
      rfl
    rw [this]
    rfl
  have hlen := (qcFilter_run_facts b rd ad recs run h).1
  rw [hlen]
  exact longestRun_complete (goodMask b s) mid.length (goodMask b t) (goodMask b recs) hmask

/-- C5: the QC filter marks a record bad exactly when it is
non-finite/unreadable, flagged bad, or some channel is out of bounds; on
acceptance it returns a contiguous run of good records of exactly the
longest-run length, no contiguous run of good records being longer; and
when the run is shorter than the absolute tolerance or than the relative
tolerance times the record total, it rejects with a failure value recording
which tolerance failed, and the whole interval pipeline returns that
failure, with no downstream stage (correction, statistics, WUE, partition,
closure) contributing to the result. -/
theorem qc_filter_spec :
    (∀ (b : Bounds) (rec : SampleRecord),
      recordBad b rec = true ↔
        (rec.readable = false ∨ rec.flagBad = true ∨
          ∃ x ∈ allVars, violatesBounds b rec.val x = true)) ∧
    (∀ (b : Bounds) (rd : ℚ) (ad : ℕ) (recs run : List SampleRecord),
      qcFilter b rd ad recs = Except.ok run →
      run.length = longestRun (goodMask b recs) ∧
      (∀ r ∈ run, recordBad b r = false) ∧
      (∀ s mid t, recs = s ++ mid ++ t → (∀ r ∈ mid, recordBad b r = false) →
        mid.length ≤ run.length)) ∧
    (∀ (b : Bounds) (rd : ℚ) (ad : ℕ) (recs : List SampleRecord),
      longestRun (goodMask b recs) < ad ∨
        ((longestRun (goodMask b recs) : ℚ) < rd * recs.length) →
      qcFilter b rd ad recs = Except.error
        (Failure.insufficientData (decide (longestRun (goodMask b recs) < ad))
          (decide ((longestRun (goodMask b recs) : ℚ) < rd * recs.length))
          (longestRun (goodMask b recs)) recs.length)) ∧
    (∀ (cfg : Config) (iv : Interval) (e : Failure),
      qcFilter cfg.bounds cfg.rd_tol cfg.ad_tol iv.records = Except.error e →
      processInterval cfg iv = Except.error e) := by
  refine ⟨?_, ?_, ?_, ?_⟩
  · intro b rec
    rw [recordBad]
    simp [List.any_eq_true]
    tauto
  · intro b rd ad recs run h
    exact ⟨(qcFilter_run_facts b rd ad recs run h).1,
      (qcFilter_run_facts b rd ad recs run h).2,
      qcFilter_run_maximal b rd ad recs run h⟩
  · intro b rd ad recs hv
    rw [qcFilter, if_pos]
    rcases hv with hv | hv <;> simp [hv]
  · intro cfg iv e h
    unfold processInterval
    rw [h, except_bind_error]

/-- Witness for C5: the empty interval fails the default absolute tolerance
(0 good records, 1024 required) but not the relative tolerance, and the
pipeline of cfgQC returns exactly that failure. -/
theorem qc_filter_check :
    processInterval cfgQC ivEmpty =
      Except.error (Failure.insufficientData true false 0 0) := by
  have hq := qc_filter_spec.2.2.1 defaultBounds 0 default_ad_tol []
    (Or.inl (by norm_num [goodMask, longestRun, lrAux, default_ad_tol]))
  have hq' : qcFilter defaultBounds 0 default_ad_tol [] =
      Except.error (Failure.insufficientData true false 0 0) := by
    rw [hq]
    norm_num [goodMask, longestRun, lrAux, default_ad_tol]
  exact qc_filter_spec.2.2.2 cfgQC ivEmpty (Failure.insufficientData true false 0 0) hq'

end Fluxpart
